import Mathlib

/-!
Verification of `src/pincracker.py` (MKIRAHMET/Pin-Tester).

The file shallowly embeds the program: Python values that can appear as a
parsed response body become an inductive type, the retry loop `make_request`
becomes a structurally recursive function over an abstract stream of raw send
results, the classifier `worker` becomes a pure function, and the scheduler
loop in `main` becomes a step function on an explicit state, iterated with
fuel.  Machine reals (the backoff delays) are modelled as exact rationals;
time is modelled by recording the sequence of sleep durations.
-/

namespace PinTester

/-- A Python value that can sit inside a decoded JSON object (restricted to
the shapes the claims need: strings, integers, booleans, `None`).  Mirrors
the values `r.json()` can store under a key in `src/pincracker.py`. -/
inductive PyVal where
  | str (s : String)
  | num (n : Int)
  | bool (b : Bool)
  | null
deriving DecidableEq, Repr

/-- Python truthiness (`if flag_val:`) for the modelled values:
`""`, `0`, `False` and `None` are falsy, everything else truthy. -/
def PyVal.truthy : PyVal → Bool
  | .str s => decide (s ≠ "")
  | .num n => decide (n ≠ 0)
  | .bool b => b
  | .null => false

/-- Python `str(v)` for the modelled values (`display_flag = flag_val if
isinstance(flag_val, str) else str(flag_val)` in `main`). -/
def PyVal.pyStr : PyVal → String
  | .str s => s
  | .num n => toString n
  | .bool b => if b then "True" else "False"
  | .null => "None"

/-- The runtime type of the second element returned by `make_request`, as
inspected by `worker` with `isinstance(data, dict)` / `isinstance(data, str)`:
a JSON object (Python `dict`), a string (either a JSON string or the raw-text
fallback), `None` (retries exhausted), or some other JSON value (list,
number, ...), which `worker` treats like `None`. -/
inductive BodyData where
  | pydict (fields : List (String × PyVal))
  | pystr (s : String)
  | pynone
  | pyother
deriving DecidableEq, Repr

/-- The body of one HTTP response, as seen by the `try: return r.status_code,
r.json() except ValueError: return r.status_code, r.text` block:
either JSON that decodes to a value, or undecodable raw text. -/
inductive HttpBody where
  | jsonOk (v : BodyData)
  | notJson (t : String)
deriving DecidableEq, Repr

/-- The raw result of one `session.get`/`session.post` call: a
`requests.exceptions.Timeout`/`ConnectionError`, or an HTTP response with a
status code and a body. -/
inductive SendResult where
  | timeoutOrConnErr
  | response (status : Nat) (body : HttpBody)
deriving DecidableEq, Repr

/-- Lines 98-102 of `src/pincracker.py`: attempt JSON decode, fall back to
the raw text on a decode failure. -/
def parseBody : HttpBody → BodyData
  | .jsonOk v => v
  | .notJson t => .pystr t

/-- The transient classification used by the retry loop: network-level
timeout/connection failure, HTTP 429, or a 5xx status. -/
def transientResult : SendResult → Bool
  | .timeoutOrConnErr => true
  | .response st _ => st == 429 || (decide (500 ≤ st) && decide (st < 600))

/-- The result of `make_request`: how many sends were performed, the sleep
durations (in seconds) executed between them, and the returned
`(status, data)` pair — `(none, .pynone)` models the Python `(None, None)`. -/
structure ReqResult where
  sendCount : Nat
  sleeps : List ℚ
  status : Option Nat
  data : BodyData
deriving DecidableEq, Repr

/-- The loop body of `make_request` (lines 71-104).  The Python loop runs
`while attempt <= retries` with `attempt` incremented on each transient
result; here `budget = retries + 1 - attempt` counts the remaining loop
iterations, so the loop guard `attempt <= retries` is exactly `budget > 0`.
`sends k` is the raw result of the `k`-th physical send. -/
def make_request_go (sends : Nat → SendResult) : Nat → Nat → ℚ → List ℚ → ReqResult
  | 0, count, _, sleeps => ⟨count, sleeps, none, .pynone⟩
  | budget + 1, count, backoff, sleeps =>
    match sends count with
    | .timeoutOrConnErr =>
        make_request_go sends budget (count + 1) (backoff * 2) (sleeps ++ [backoff])
    | .response st body =>
        if st = 429 then
          make_request_go sends budget (count + 1) (backoff * 2) (sleeps ++ [backoff])
        else if 500 ≤ st ∧ st < 600 then
          make_request_go sends budget (count + 1) (backoff * 2) (sleeps ++ [backoff])
        else
          ⟨count + 1, sleeps, some st, parseBody body⟩

/-- `make_request(session, method, url, params, timeout, retries)`:
`attempt = 0`, `backoff = 0.5`, loop while `attempt <= retries`. -/
def make_request (retries : Nat) (sends : Nat → SendResult) : ReqResult :=
  make_request_go sends (retries + 1) 0 (1 / 2) []

/-- Python `s.lower()` (character-wise lowering; the source only ever meets
ASCII). -/
def pyLower (s : String) : String := ⟨s.data.map Char.toLower⟩

/-- Python `s.strip()`: drop whitespace from both ends. -/
def pyStrip (s : String) : String :=
  ⟨((s.data.dropWhile Char.isWhitespace).reverse.dropWhile Char.isWhitespace).reverse⟩

/-- `listContainsSub sub l` is true when `sub` occurs contiguously in `l`. -/
def listContainsSub (sub : List Char) : List Char → Bool
  | [] => decide (sub = [])
  | a :: l => sub.isPrefixOf (a :: l) || listContainsSub sub l

/-- Python substring test `sub in s`. -/
def strContains (s sub : String) : Bool := listContainsSub sub.data s.data

/-- Python `len(s)` (character count). -/
def strLen (s : String) : Nat := s.data.length

/-- Python slice `s[:n]` (first `n` characters). -/
def strTake (s : String) (n : Nat) : String := ⟨s.data.take n⟩

/-- `worker` (lines 106-128): classify one completed attempt.  Returns the
tuple `(pin_str, flag_or_none, status, body)`.  The dict branch fires when
the body is a JSON object containing `flag_key`; the text branch fires when
the body is a string whose stripped form is non-empty and whose lowered form
contains `"flag"`, or contains `"ctf\x7b"`, or contains both `"\x7b"` and
`"\x7d"` (Python parses `a or b or c and d` as `a or b or (c and d)`). -/
def worker (pin_str flag_key : String) (status : Option Nat) (data : BodyData) :
    String × Option PyVal × Option Nat × BodyData :=
  match data with
  | .pydict fields =>
    match fields.lookup flag_key with
    | some v => (pin_str, some v, status, data)
    | none => (pin_str, none, status, data)
  | .pystr s =>
    if pyStrip s ≠ "" then
      if strContains (pyLower s) "flag" || strContains (pyLower s) "ctf\x7b" ||
          (strContains (pyLower s) "\x7b" && strContains (pyLower s) "\x7d") then
        (pin_str, some (.str (pyStrip s)), status, data)
      else (pin_str, none, status, data)
    else (pin_str, none, status, data)
  | .pynone => (pin_str, none, status, data)
  | .pyother => (pin_str, none, status, data)

/-- The outcome of `fut.result()` in `main`'s completion loop: either the
tuple returned by `worker`, or an unclassified exception with its message. -/
inductive FutResult where
  | ok (r : String × Option PyVal × Option Nat × BodyData)
  | exc (msg : String)
deriving DecidableEq, Repr

/-- Lines 193-195 of `src/pincracker.py`: the displayed payload —
`str(flag_val)` unless it already is a string, truncated to 300 characters
with a marker when longer. -/
def displayFlag (v : PyVal) : String :=
  if 300 < strLen v.pyStr then strTake v.pyStr 300 ++ " ... (truncated)" else v.pyStr

/-- Lines 178-209 of `main`: handle one completed future.  Returns the new
success list, the new list of permanent output lines, and whether the run
returns now (`--stop-on-found` after a recorded success).  An exception
prints a permanent error line and then falls into the failure branch
(`flag_val = None`); a falsy `flag_val` (Python `if flag_val:`) also takes
the failure branch, which only rewrites the ephemeral progress line. -/
def processOutcome (stopOnFound : Bool) (found : List (String × String))
    (outputs : List String) (pin : String) (r : FutResult) :
    List (String × String) × List String × Bool :=
  match r with
  | .exc m => (found, outputs ++ ["[!] " ++ pin ++ " -> exception: " ++ m], false)
  | .ok (pin_str, flagVal, _status, _body) =>
    match flagVal with
    | some v =>
      if v.truthy then
        (found ++ [(pin_str, displayFlag v)],
         outputs ++ ["Correct PIN found: " ++ pin_str, "Flag: " ++ displayFlag v],
         stopOnFound)
      else (found, outputs, false)
    | none => (found, outputs, false)

/-- The scheduler bookkeeping of `main`: the in-flight futures (each
identified by its candidate), the cursor `idx` into the candidate list, the
success list `found`, the permanent console lines, the candidates issued so
far (initial batch plus refills, in submission order), and whether the run
returned through `--stop-on-found`. -/
structure RunState where
  futures : List String
  idx : Nat
  found : List (String × String)
  outputs : List String
  issued : List String
  stopped : Bool
deriving DecidableEq, Repr

/-- Lines 163-168: submit the initial batch — `while idx < total and
len(futures) < args.threads`. -/
def initState (pins : List String) (t : Nat) : RunState :=
  { futures := pins.take t, idx := (pins.take t).length, found := [],
    outputs := [], issued := pins.take t, stopped := false }

/-- One iteration of the `while futures:` loop (lines 172-220) in which the
single future at position `sched tick % len(futures)` completes (`wait`
returns completions in arbitrary order; `sched` is the completion schedule,
and `attempt pin` is the deterministic outcome of the attempt on `pin`).
The completed slot is processed in list order, so its refill — submitted
before the pending entries are re-appended — takes its position in
`new_futures`; on a recorded success with `--stop-on-found` the function
returns before any refill. -/
def schedStep (pins : List String) (stopOnFound : Bool) (attempt : String → FutResult)
    (sched : Nat → Nat) (tick : Nat) (st : RunState) : RunState :=
  match st.futures with
  | [] => st
  | f :: rest =>
    let fs := f :: rest
    let j := sched tick % fs.length
    let pin := fs.getD j ""
    let pr := processOutcome stopOnFound st.found st.outputs pin (attempt pin)
    if pr.2.2 then
      { st with found := pr.1,
                outputs := pr.2.1 ++ ["Stopping because --stop-on-found was set."],
                stopped := true }
    else if st.idx < pins.length then
      { futures := fs.take j ++ pins.getD st.idx "" :: fs.drop (j + 1),
        idx := st.idx + 1, found := pr.1, outputs := pr.2.1,
        issued := st.issued ++ [pins.getD st.idx ""], stopped := st.stopped }
    else
      { st with futures := fs.take j ++ fs.drop (j + 1),
                found := pr.1, outputs := pr.2.1 }

/-- Iterate `schedStep` while futures remain, returning on stop, exactly as
the `while futures:` loop does.  Each iteration either consumes one unissued
candidate or shrinks the future list, so `pins.length + t + 1` units of fuel
(supplied by `runMain`) always reach the real end of the loop. -/
def runSchedAux (pins : List String) (stopOnFound : Bool) (attempt : String → FutResult)
    (sched : Nat → Nat) : Nat → Nat → RunState → RunState
  | 0, _, st => st
  | fuel + 1, tick, st =>
    if st.futures = [] then st
    else
      let st' := schedStep pins stopOnFound attempt sched tick st
      if st'.stopped then st'
      else runSchedAux pins stopOnFound attempt sched fuel (tick + 1) st'

/-- The whole scheduling phase of `main`: initial batch, then the completion
loop. -/
def runMain (pins : List String) (t : Nat) (stopOnFound : Bool)
    (attempt : String → FutResult) (sched : Nat → Nat) : RunState :=
  runSchedAux pins stopOnFound attempt sched (pins.length + t + 1) 0 (initState pins t)

/-- Same iteration as `runSchedAux`, but recording every state the loop head
observes (including the final one), so that invariants can be stated about
every moment of the run. -/
def runTraceAux (pins : List String) (stopOnFound : Bool) (attempt : String → FutResult)
    (sched : Nat → Nat) : Nat → Nat → RunState → List RunState
  | 0, _, st => [st]
  | fuel + 1, tick, st =>
    if st.futures = [] then [st]
    else
      let st' := schedStep pins stopOnFound attempt sched tick st
      if st'.stopped then [st, st']
      else st :: runTraceAux pins stopOnFound attempt sched fuel (tick + 1) st'

/-- All loop-head states of a full run. -/
def runTrace (pins : List String) (t : Nat) (stopOnFound : Bool)
    (attempt : String → FutResult) (sched : Nat → Nat) : List RunState :=
  runTraceAux pins stopOnFound attempt sched (pins.length + t + 1) 0 (initState pins t)

/-- Python `f"\x7bi:04d\x7d"` for `i < 10000`: the four decimal digits of
`i`, zero-padded to width 4 (line 152 of `src/pincracker.py`). -/
def pad4 (i : Nat) : String :=
  ⟨[Nat.digitChar (i / 1000 % 10), Nat.digitChar (i / 100 % 10),
    Nat.digitChar (i / 10 % 10), Nat.digitChar (i % 10)]⟩

/-- `pins = [f"\x7bi:04d\x7d" for i in range(10000)]`. -/
def pinList : List String := (List.range 10000).map pad4

/-- Modelled from the words of claim C2, as stated: free text is classified
a success iff it is non-empty after trimming and, case-insensitively,
contains the substring `"flag"`, or contains the literal substring
`"ctf\x7b"`, or contains both a `"\x7b"` and a `"\x7d"` character anywhere
in the text. -/
def claimTextRule (s : String) : Bool :=
  decide (pyStrip s ≠ "") &&
    (strContains (pyLower s) "flag" || strContains s "ctf\x7b" ||
      (strContains s "\x7b" && strContains s "\x7d"))

/-- Modelled from the amended claim C2: the same rule, but with every
substring check (including the `"ctf\x7b"` one) applied to the lowercased
text, as the code does after `low = data.lower()`. -/
def claimTextRuleCI (s : String) : Bool :=
  decide (pyStrip s ≠ "") &&
    (strContains (pyLower s) "flag" || strContains (pyLower s) "ctf\x7b" ||
      (strContains (pyLower s) "\x7b" && strContains (pyLower s) "\x7d"))

/-- A 301-character payload, used to exercise the display truncation. -/
def longPayload : String := ⟨List.replicate 301 'a'⟩

/-! ## Helper lemmas -/

lemma worker_fst (pin key : String) (status : Option Nat) (data : BodyData) :
    (worker pin key status data).1 = pin := by
  cases data with
  | pydict fields => cases h : fields.lookup key <;> simp [worker, h]
  | pystr s =>
    simp only [worker]
    split
    · split <;> rfl
    · rfl
  | pynone => rfl
  | pyother => rfl

lemma make_request_go_count_le (sends : Nat → SendResult) :
    ∀ budget count backoff sleeps,
      count ≤ (make_request_go sends budget count backoff sleeps).sendCount := by
  intro budget
  induction budget with
  | zero => intro count backoff sleeps; simp [make_request_go]
  | succ n ih =>
    intro count backoff sleeps
    simp only [make_request_go]
    cases sends count with
    | timeoutOrConnErr => exact le_trans (Nat.le_succ count) (ih _ _ _)
    | response st body =>
      by_cases h1 : st = 429
      · simpa [h1] using le_trans (Nat.le_succ count) (ih (count + 1) (backoff * 2) _)
      · by_cases h2 : 500 ≤ st ∧ st < 600
        · simpa [h1, h2] using le_trans (Nat.le_succ count) (ih (count + 1) (backoff * 2) _)
        · simp [h1, h2]

lemma make_request_go_count_ge (sends : Nat → SendResult) :
    ∀ budget count backoff sleeps, 1 ≤ budget →
      count + 1 ≤ (make_request_go sends budget count backoff sleeps).sendCount := by
  intro budget
  cases budget with
  | zero => intro _ _ _ h; exact absurd h (by omega)
  | succ n =>
    intro count backoff sleeps _
    simp only [make_request_go]
    cases sends count with
    | timeoutOrConnErr => exact make_request_go_count_le sends n (count + 1) _ _
    | response st body =>
      by_cases h1 : st = 429
      · simpa [h1] using make_request_go_count_le sends n (count + 1) (backoff * 2) _
      · by_cases h2 : 500 ≤ st ∧ st < 600
        · simpa [h1, h2] using make_request_go_count_le sends n (count + 1) (backoff * 2) _
        · simp [h1, h2]

lemma range_map_pow_succ (b : ℚ) (n : Nat) :
    (List.range (n + 1)).map (fun i => b * 2 ^ i)
      = b :: (List.range n).map (fun i => (b * 2) * 2 ^ i) := by
  rw [List.range_succ_eq_map, List.map_cons, List.map_map]
  simp only [pow_zero, mul_one, List.cons.injEq, true_and]
  apply List.map_congr_left
  intro a _
  simp only [Function.comp_apply, pow_succ]
  ring

lemma make_request_go_transient (sends : Nat → SendResult)
    (h : ∀ k, transientResult (sends k) = true) :
    ∀ budget count backoff sleeps,
      make_request_go sends budget count backoff sleeps
        = ⟨count + budget, sleeps ++ (List.range budget).map (fun i => backoff * 2 ^ i),
           none, .pynone⟩ := by
  intro budget
  induction budget with
  | zero => intro count backoff sleeps; simp [make_request_go]
  | succ n ih =>
    intro count backoff sleeps
    have ht := h count
    simp only [make_request_go]
    have step :
        make_request_go sends n (count + 1) (backoff * 2) (sleeps ++ [backoff])
          = ⟨count + (n + 1),
             sleeps ++ (List.range (n + 1)).map (fun i => backoff * 2 ^ i),
             none, .pynone⟩ := by
      rw [ih]
      refine congrArg₂ (fun a b => ReqResult.mk a b none .pynone) (by omega) ?_
      rw [range_map_pow_succ, List.append_assoc, List.singleton_append]
    cases hs : sends count with
    | timeoutOrConnErr => exact step
    | response st body =>
      rw [hs] at ht
      dsimp only
      simp only [transientResult, Bool.or_eq_true, beq_iff_eq, Bool.and_eq_true,
        decide_eq_true_eq] at ht
      rcases ht with h1 | h2
      · rw [if_pos h1]; exact step
      · by_cases h1 : st = 429
        · rw [if_pos h1]; exact step
        · rw [if_neg h1, if_pos h2]; exact step

/-! ## Claims about the attempt executor and classifier -/

/-- Claim C3 (confirmed): on an all-transient endpoint the executor performs
`R + 1` sends, sleeping the current backoff after each transient outcome
(starting at 0.5 s and doubling, uncapped), and then returns the terminal
no-result outcome `(None, None)`, which `worker` classifies as a failure
(`flag_or_none = None`); in particular, with `R = 0` and an endpoint that
always answers HTTP 429, exactly one send occurs. -/
theorem claim_C3 (R : Nat) (sends : Nat → SendResult)
    (h : ∀ k, transientResult (sends k) = true) :
    make_request R sends
      = ⟨R + 1, (List.range (R + 1)).map (fun i => (1 / 2 : ℚ) * 2 ^ i), none, .pynone⟩
    ∧ (∀ pin key, (worker pin key none .pynone).2.1 = none)
    ∧ (make_request 0 (fun _ => .response 429 (.notJson ""))).sendCount = 1 := by
  refine ⟨?_, fun pin key => rfl, rfl⟩
  unfold make_request
  rw [make_request_go_transient sends h]
  simp

theorem claim_C3_witness :
    (∀ k : Nat, transientResult ((fun _ => SendResult.timeoutOrConnErr) k) = true)
    ∧ make_request 2 (fun _ => SendResult.timeoutOrConnErr)
        = ⟨2 + 1, (List.range (2 + 1)).map (fun i => (1 / 2 : ℚ) * 2 ^ i), none, .pynone⟩ :=
  ⟨fun _ => rfl, (claim_C3 2 (fun _ => SendResult.timeoutOrConnErr) (fun _ => rfl)).1⟩

/-- Claim C4 (confirmed): a single raw send result is treated as transient
(and retried, when budget remains) exactly when it is a network-level
timeout/connection failure, an HTTP 429, or a 5xx status; any other status
is terminal — the executor stops after that one send and parses the body,
taking the JSON decode when it succeeds and the raw text otherwise. -/
theorem claim_C4 (R : Nat) (sends : Nat → SendResult) :
    (∀ st body, sends 0 = .response st body → st ≠ 429 → ¬(500 ≤ st ∧ st < 600) →
        make_request R sends = ⟨1, [], some st, parseBody body⟩)
    ∧ (transientResult (sends 0) = true → 1 ≤ R → 2 ≤ (make_request R sends).sendCount)
    ∧ (∀ v, parseBody (.jsonOk v) = v) ∧ (∀ s, parseBody (.notJson s) = .pystr s) := by
  refine ⟨?_, ?_, fun v => rfl, fun s => rfl⟩
  · intro st body h h1 h2
    unfold make_request
    simp only [make_request_go, h]
    rw [if_neg h1, if_neg h2]
  · intro ht hR
    unfold make_request
    simp only [make_request_go]
    cases hs : sends 0 with
    | timeoutOrConnErr => exact make_request_go_count_ge sends R 1 _ _ hR
    | response st body =>
      rw [hs] at ht
      dsimp only
      simp only [transientResult, Bool.or_eq_true, beq_iff_eq, Bool.and_eq_true,
        decide_eq_true_eq] at ht
      rcases ht with h1 | h2
      · rw [if_pos h1]; exact make_request_go_count_ge sends R 1 _ _ hR
      · by_cases h1 : st = 429
        · rw [if_pos h1]; exact make_request_go_count_ge sends R 1 _ _ hR
        · rw [if_neg h1, if_pos h2]; exact make_request_go_count_ge sends R 1 _ _ hR

theorem claim_C4_witness :
    ((fun _ : Nat => SendResult.response 200 (HttpBody.jsonOk (BodyData.pydict []))) 0
        = SendResult.response 200 (HttpBody.jsonOk (BodyData.pydict [])))
    ∧ (200 ≠ 429) ∧ ¬(500 ≤ 200 ∧ 200 < 600)
    ∧ make_request 3 (fun _ => SendResult.response 200 (HttpBody.jsonOk (BodyData.pydict [])))
        = ⟨1, [], some 200, parseBody (HttpBody.jsonOk (BodyData.pydict []))⟩
    ∧ transientResult ((fun _ : Nat => SendResult.timeoutOrConnErr) 0) = true
    ∧ 1 ≤ 3
    ∧ 2 ≤ (make_request 3 (fun _ => SendResult.timeoutOrConnErr)).sendCount :=
  ⟨rfl, by decide, by decide,
   (claim_C4 3 (fun _ => SendResult.response 200 (HttpBody.jsonOk (BodyData.pydict [])))).1
     200 (HttpBody.jsonOk (BodyData.pydict [])) rfl (by decide) (by decide),
   rfl, by decide,
   (claim_C4 3 (fun _ => SendResult.timeoutOrConnErr)).2.1 rfl (by decide)⟩

/-- Claim C1 counterexample: the body `{"flag": ""}` contains the configured
success key, and `worker` does extract the payload `""`, yet the run does
not record it in the success list — `main`'s `if flag_val:` is falsy for the
empty string, so the completion takes the failure branch and nothing is
appended to `found`.  This refutes the claim for falsy values. -/
theorem claim_C1_counterexample :
    (worker "0001" "flag" (some 200) (.pydict [("flag", PyVal.str "")])).2.1
      = some (PyVal.str "")
    ∧ processOutcome true [] [] "0001"
        (.ok (worker "0001" "flag" (some 200) (.pydict [("flag", PyVal.str "")])))
      = ([], [], false) := by decide

/-- Claim C1, amended (proved): when the terminal body is a JSON object
containing the configured success key, `worker` classifies the attempt with
payload equal to the stored value for every value; the run records the
attempt in the success list (and emits the success lines) exactly when that
value is truthy, while falsy values (empty string, 0, false, null) take the
failure branch and are not recorded. -/
theorem claim_C1 (pin key : String) (fields : List (String × PyVal)) (v : PyVal)
    (status : Option Nat) (stopOnFound : Bool) (found : List (String × String))
    (outputs : List String) (h : fields.lookup key = some v) :
    worker pin key status (.pydict fields) = (pin, some v, status, .pydict fields)
    ∧ (v.truthy = true →
        processOutcome stopOnFound found outputs pin
            (.ok (worker pin key status (.pydict fields)))
          = (found ++ [(pin, displayFlag v)],
             outputs ++ ["Correct PIN found: " ++ pin, "Flag: " ++ displayFlag v],
             stopOnFound))
    ∧ (v.truthy = false →
        processOutcome stopOnFound found outputs pin
            (.ok (worker pin key status (.pydict fields)))
          = (found, outputs, false)) := by
  have hw : worker pin key status (.pydict fields) = (pin, some v, status, .pydict fields) := by
    simp [worker, h]
  refine ⟨hw, ?_, ?_⟩ <;> intro htv <;> rw [hw] <;> simp [processOutcome, htv]

theorem claim_C1_witness :
    ([("flag", PyVal.str "X")].lookup "flag" = some (PyVal.str "X"))
    ∧ (PyVal.str "X").truthy = true
    ∧ processOutcome true [] [] "4242"
        (.ok (worker "4242" "flag" (some 200) (.pydict [("flag", PyVal.str "X")])))
      = ([] ++ [("4242", displayFlag (PyVal.str "X"))],
         [] ++ ["Correct PIN found: " ++ "4242", "Flag: " ++ displayFlag (PyVal.str "X")],
         true) :=
  ⟨by decide, by decide,
   (claim_C1 "4242" "flag" [("flag", PyVal.str "X")] (PyVal.str "X") (some 200) true [] []
       (by decide)).2.1 (by decide)⟩

/-- Claim C2 counterexample: on the free-text body `"CTF\x7b"` the code
classifies the attempt as a Success (it lowercases the text before the
`"ctf\x7b"` check), but the claim's rule — which requires the *literal*
substring `"ctf\x7b"`, and otherwise finds neither `"flag"` nor a closing
`"\x7d"` — classifies it as a Failure. -/
theorem claim_C2_counterexample :
    (worker "0000" "flag" (some 200) (.pystr "CTF\x7b")).2.1
      = some (PyVal.str "CTF\x7b")
    ∧ claimTextRule "CTF\x7b" = false := by decide

/-- Claim C2, amended (proved): a free-text body is classified as Success
with payload the trimmed text iff it is non-empty after trimming and its
*lowercased* form contains `"flag"`, or contains `"ctf\x7b"`, or contains
both `"\x7b"` and `"\x7d"`; otherwise the attempt is a Failure. -/
theorem claim_C2 (pin key : String) (status : Option Nat) (s : String) :
    (worker pin key status (.pystr s)).2.1
      = if claimTextRuleCI s then some (PyVal.str (pyStrip s)) else none := by
  unfold worker claimTextRuleCI
  by_cases h : pyStrip s = ""
  · simp [h]
  · cases hc : (strContains (pyLower s) "flag" || strContains (pyLower s) "ctf\x7b" ||
        (strContains (pyLower s) "\x7b" && strContains (pyLower s) "\x7d")) <;>
      simp [h, hc]

set_option maxRecDepth 40000 in
/-- Claim C8 counterexample: a 301-character payload is recorded in `found`
as the truncated display string, not as the original payload —
`found.append((pin_str, display_flag))` stores the already-truncated value,
so the truncation is a data loss in the recorded success list, contrary to
the claim. -/
theorem claim_C8_counterexample :
    (processOutcome false [] [] "0000"
        (.ok ("0000", some (PyVal.str longPayload), some 200,
              .pydict [("flag", PyVal.str longPayload)]))).1
      = [("0000", strTake longPayload 300 ++ " ... (truncated)")]
    ∧ strTake longPayload 300 ++ " ... (truncated)" ≠ longPayload := by decide

/-- Claim C8, amended (proved): a recorded success whose payload exceeds 300
characters is displayed as the first 300 characters with the
`" ... (truncated)"` marker appended, and that same truncated display string
— not the full payload — is what the run appends to the recorded success
list. -/
theorem claim_C8 (pin : String) (v : PyVal) (status : Option Nat) (body : BodyData)
    (stopOnFound : Bool) (found : List (String × String)) (outputs : List String)
    (hT : v.truthy = true) (hL : 300 < strLen v.pyStr) :
    displayFlag v = strTake v.pyStr 300 ++ " ... (truncated)"
    ∧ (processOutcome stopOnFound found outputs pin (.ok (pin, some v, status, body))).1
        = found ++ [(pin, strTake v.pyStr 300 ++ " ... (truncated)")] := by
  have hd : displayFlag v = strTake v.pyStr 300 ++ " ... (truncated)" := by
    unfold displayFlag; rw [if_pos hL]
  exact ⟨hd, by simp [processOutcome, hT, hd]⟩

set_option maxRecDepth 40000 in
theorem claim_C8_witness :
    (PyVal.str longPayload).truthy = true
    ∧ 300 < strLen (PyVal.str longPayload).pyStr
    ∧ (processOutcome false [] [] "0000"
          (.ok ("0000", some (PyVal.str longPayload), some 200, .pynone))).1
        = [] ++ [("0000", strTake (PyVal.str longPayload).pyStr 300 ++ " ... (truncated)")] :=
  ⟨by decide, by decide,
   (claim_C8 "0000" (PyVal.str longPayload) (some 200) .pynone false [] []
       (by decide) (by decide)).2⟩

/-- Claim C10 (confirmed): the first component of the tuple `worker` returns
is always the candidate it was given, so any entry the completion handler
adds to the success list is attributed to exactly the candidate whose
attempt produced it. -/
theorem claim_C10 (pin key : String) (status : Option Nat) (data : BodyData)
    (stopOnFound : Bool) (found : List (String × String)) (outputs : List String) :
    (worker pin key status data).1 = pin
    ∧ ∀ e ∈ (processOutcome stopOnFound found outputs pin
          (.ok (worker pin key status data))).1,
        e ∈ found ∨ e.1 = pin := by
  refine ⟨worker_fst pin key status data, ?_⟩
  intro e he
  rcases hw : worker pin key status data with ⟨ps, fv, st2, bd⟩
  have hps : ps = pin := by
    have := worker_fst pin key status data
    rw [hw] at this
    exact this
  rw [hw] at he
  cases fv with
  | none => exact Or.inl (by simpa [processOutcome] using he)
  | some v =>
    by_cases htv : v.truthy
    · simp only [processOutcome, htv, if_pos, List.mem_append, List.mem_singleton] at he
      rcases he with he | he
      · exact Or.inl he
      · exact Or.inr (by rw [he, hps])
    · exact Or.inl (by simpa [processOutcome, htv] using he)

theorem claim_C10_witness :
    ("0001", "z") ∈ (processOutcome false [("0001", "z")] [] "0007"
        (.ok (worker "0007" "flag" (some 200) (.pystr "no")))).1
    ∧ (("0001", "z") ∈ [("0001", "z")] ∨ ("0001", "z").1 = "0007") :=
  ⟨by decide,
   (claim_C10 "0007" "flag" (some 200) (.pystr "no") false [("0001", "z")] []).2
     ("0001", "z") (by decide)⟩

/-! ## Scheduler lemmas -/

lemma list_surgery_length (fs : List String) (x : String) (j : Nat) (hj : j < fs.length) :
    (fs.take j ++ x :: fs.drop (j + 1)).length = fs.length := by
  simp only [List.length_append, List.length_take, List.length_cons, List.length_drop]
  omega

lemma list_remove_length (fs : List String) (j : Nat) (hj : j < fs.length) :
    (fs.take j ++ fs.drop (j + 1)).length + 1 = fs.length := by
  simp only [List.length_append, List.length_take, List.length_drop]
  omega

lemma processOutcome_stop (so : Bool) (found : List (String × String)) (outputs : List String)
    (pin : String) (r : FutResult)
    (h : (processOutcome so found outputs pin r).2.2 = true) : so = true := by
  rcases r with ⟨⟨ps, fv, st2, bd⟩⟩ | m
  · rcases fv with _ | v
    · simp [processOutcome] at h
    · by_cases htv : v.truthy
      · simpa [processOutcome, htv] using h
      · simp [processOutcome, htv] at h
  · simp [processOutcome] at h

/-- Case analysis of one scheduler iteration: a recorded success with
`--stop-on-found` stops without touching the cursor; otherwise the completed
slot is refilled if candidates remain (advancing the cursor and the issuance
log), or simply removed once the cursor is exhausted. -/
lemma schedStep_cases (pins : List String) (so : Bool) (att : String → FutResult)
    (sched : Nat → Nat) (tick : Nat) (st st' : RunState)
    (hst' : st' = schedStep pins so att sched tick st) (hne : st.futures ≠ []) :
    (st'.stopped = true ∧ so = true ∧ st'.idx = st.idx ∧ st'.futures = st.futures
      ∧ st'.issued = st.issued)
    ∨ (st'.stopped = st.stopped ∧ st.idx < pins.length ∧ st'.idx = st.idx + 1
        ∧ st'.futures.length = st.futures.length
        ∧ st'.issued = st.issued ++ [pins.getD st.idx ""])
    ∨ (st'.stopped = st.stopped ∧ ¬ st.idx < pins.length ∧ st'.idx = st.idx
        ∧ st'.futures.length + 1 = st.futures.length ∧ st'.issued = st.issued) := by
  subst hst'
  obtain ⟨f, rest, hf⟩ := List.exists_cons_of_ne_nil hne
  have hm : sched tick % (f :: rest).length < (f :: rest).length :=
    Nat.mod_lt _ (by simp)
  simp only [schedStep, hf]
  split_ifs with h1 h2
  · exact Or.inl ⟨rfl, processOutcome_stop _ _ _ _ _ h1, rfl, hf.symm ▸ rfl, rfl⟩
  · refine Or.inr (Or.inl ⟨rfl, h2, rfl, ?_, rfl⟩)
    exact list_surgery_length (f :: rest) _ _ hm
  · refine Or.inr (Or.inr ⟨rfl, h2, rfl, ?_, rfl⟩)
    exact list_remove_length (f :: rest) _ hm

/-- The concurrency-budget invariant: the cursor never passes the end, at
most `t` attempts are in flight, and — while candidates remain unissued and
no stop has been requested — exactly `t` are in flight. -/
def InvC6 (N t : Nat) (st : RunState) : Prop :=
  st.idx ≤ N ∧ st.futures.length ≤ t
    ∧ (st.stopped = false → st.idx < N → st.futures.length = t)

lemma schedStep_invC6 (pins : List String) (t : Nat) (so : Bool) (att : String → FutResult)
    (sched : Nat → Nat) (tick : Nat) (st : RunState)
    (h : InvC6 pins.length t st) (hne : st.futures ≠ []) :
    InvC6 pins.length t (schedStep pins so att sched tick st) := by
  obtain ⟨h1, h2, h3⟩ := h
  rcases schedStep_cases pins so att sched tick st _ rfl hne with
    ⟨hs, _, hi, hfu, _⟩ | ⟨hs, hlt, hi, hl, _⟩ | ⟨hs, hge, hi, hl, _⟩
  · refine ⟨hi ▸ h1, ?_, ?_⟩
    · rw [hfu]; exact h2
    · intro hc
      rw [hc] at hs
      exact absurd hs (by decide)
  · refine ⟨by omega, by omega, ?_⟩
    intro hc hlt'
    rw [hl]
    exact h3 (hs ▸ hc) hlt
  · exact ⟨by omega, by omega, fun hc hlt' => absurd (hi ▸ hlt') hge⟩

lemma runTraceAux_invC6 (pins : List String) (t : Nat) (so : Bool)
    (att : String → FutResult) (sched : Nat → Nat) :
    ∀ fuel tick st, InvC6 pins.length t st →
      ∀ s ∈ runTraceAux pins so att sched fuel tick st, InvC6 pins.length t s := by
  intro fuel
  induction fuel with
  | zero =>
    intro tick st h s hs
    simp only [runTraceAux, List.mem_singleton] at hs
    exact hs ▸ h
  | succ n ih =>
    intro tick st h s hs
    by_cases hne : st.futures = []
    · simp only [runTraceAux, if_pos hne, List.mem_singleton] at hs
      exact hs ▸ h
    · have h' := schedStep_invC6 pins t so att sched tick st h hne
      by_cases hstop : (schedStep pins so att sched tick st).stopped = true
      · simp only [runTraceAux, if_neg hne, if_pos hstop, List.mem_cons,
          List.mem_singleton, List.not_mem_nil, or_false] at hs
        rcases hs with hs | hs
        · exact hs ▸ h
        · exact hs ▸ h'
      · simp only [runTraceAux, if_neg hne, if_neg hstop, List.mem_cons] at hs
        rcases hs with hs | hs
        · exact hs ▸ h
        · exact ih (tick + 1) _ h' s hs

lemma initState_invC6 (pins : List String) (t : Nat) (ht : t ≤ pins.length) :
    InvC6 pins.length t (initState pins t) := by
  unfold InvC6 initState
  simp only [List.length_take]
  refine ⟨by omega, by omega, fun _ _ => by omega⟩

/-- Claim C6 (confirmed): in every run with `t` threads and at least `t`
candidates, the number of in-flight attempts never exceeds `t` at any loop
head, and while unissued candidates remain and no stop has been requested it
equals `min t r`, where `r` counts the candidates not yet completed
(unissued plus in-flight). -/
theorem claim_C6 (pins : List String) (t : Nat) (stopOnFound : Bool)
    (attempt : String → FutResult) (sched : Nat → Nat) (st : RunState)
    (ht : t ≤ pins.length)
    (hmem : st ∈ runTrace pins t stopOnFound attempt sched) :
    st.futures.length ≤ t
    ∧ (st.stopped = false → st.idx < pins.length →
        st.futures.length = min t ((pins.length - st.idx) + st.futures.length)) := by
  have hinv := runTraceAux_invC6 pins t stopOnFound attempt sched _ 0 _
    (initState_invC6 pins t ht) st hmem
  refine ⟨hinv.2.1, fun h1 h2 => ?_⟩
  have h3 := hinv.2.2 h1 h2
  omega

theorem claim_C6_witness :
    (1 ≤ (["a", "b"] : List String).length)
    ∧ initState ["a", "b"] 1
        ∈ runTrace ["a", "b"] 1 false (fun p => .ok (p, none, some 403, .pystr "no"))
            (fun _ => 0)
    ∧ ((initState ["a", "b"] 1).futures.length ≤ 1
        ∧ ((initState ["a", "b"] 1).stopped = false →
            (initState ["a", "b"] 1).idx < (["a", "b"] : List String).length →
            (initState ["a", "b"] 1).futures.length
              = min 1 (((["a", "b"] : List String).length - (initState ["a", "b"] 1).idx)
                  + (initState ["a", "b"] 1).futures.length))) :=
  ⟨by decide, by decide,
   claim_C6 ["a", "b"] 1 false (fun p => .ok (p, none, some 403, .pystr "no")) (fun _ => 0)
     (initState ["a", "b"] 1) (by decide) (by decide)⟩

/-- Claim C9 (confirmed): when the completed attempt raised an unclassified
exception, the scheduler iteration appends exactly one permanent error line
identifying the offending candidate, records no success, does not set the
stop flag, and schedules exactly as for a failure: the freed slot is
refilled with the next candidate when any remain (advancing the cursor and
the issuance log), and is simply retired otherwise. -/
theorem claim_C9 (pins : List String) (stopOnFound : Bool) (attempt : String → FutResult)
    (sched : Nat → Nat) (tick : Nat) (st : RunState) (f : String) (rest : List String)
    (m : String) (hf : st.futures = f :: rest)
    (hexc : attempt ((f :: rest).getD (sched tick % (f :: rest).length) "") = .exc m) :
    (schedStep pins stopOnFound attempt sched tick st).outputs
      = st.outputs
        ++ ["[!] " ++ (f :: rest).getD (sched tick % (f :: rest).length) ""
              ++ " -> exception: " ++ m]
    ∧ (schedStep pins stopOnFound attempt sched tick st).found = st.found
    ∧ (schedStep pins stopOnFound attempt sched tick st).stopped = st.stopped
    ∧ (st.idx < pins.length →
        (schedStep pins stopOnFound attempt sched tick st).futures.length
            = st.futures.length
        ∧ (schedStep pins stopOnFound attempt sched tick st).issued
            = st.issued ++ [pins.getD st.idx ""]
        ∧ (schedStep pins stopOnFound attempt sched tick st).idx = st.idx + 1)
    ∧ (¬ st.idx < pins.length →
        (schedStep pins stopOnFound attempt sched tick st).futures.length + 1
            = st.futures.length
        ∧ (schedStep pins stopOnFound attempt sched tick st).idx = st.idx) := by
  have hm : sched tick % (f :: rest).length < (f :: rest).length :=
    Nat.mod_lt _ (by simp)
  have hpr : processOutcome stopOnFound st.found st.outputs
      ((f :: rest).getD (sched tick % (f :: rest).length) "")
      (attempt ((f :: rest).getD (sched tick % (f :: rest).length) ""))
      = (st.found,
         st.outputs
           ++ ["[!] " ++ (f :: rest).getD (sched tick % (f :: rest).length) ""
                 ++ " -> exception: " ++ m],
         false) := by
    rw [hexc]
    rfl
  by_cases hidx : st.idx < pins.length
  · have hstep : schedStep pins stopOnFound attempt sched tick st
        = ⟨(f :: rest).take (sched tick % (f :: rest).length)
              ++ pins.getD st.idx ""
                :: (f :: rest).drop (sched tick % (f :: rest).length + 1),
           st.idx + 1, st.found,
           st.outputs
             ++ ["[!] " ++ (f :: rest).getD (sched tick % (f :: rest).length) ""
                   ++ " -> exception: " ++ m],
           st.issued ++ [pins.getD st.idx ""], st.stopped⟩ := by
      simp only [schedStep, hf]
      rw [hpr]
      dsimp only
      rw [if_neg (by decide), if_pos hidx]
    rw [hstep]
    refine ⟨rfl, rfl, rfl, fun _ => ⟨?_, rfl, rfl⟩, fun hc => absurd hidx hc⟩
    rw [hf]
    exact list_surgery_length (f :: rest) _ _ hm
  · have hstep : schedStep pins stopOnFound attempt sched tick st
        = { st with
            futures := (f :: rest).take (sched tick % (f :: rest).length)
              ++ (f :: rest).drop (sched tick % (f :: rest).length + 1),
            found := st.found,
            outputs := st.outputs
              ++ ["[!] " ++ (f :: rest).getD (sched tick % (f :: rest).length) ""
                    ++ " -> exception: " ++ m] } := by
      simp only [schedStep, hf]
      rw [hpr]
      dsimp only
      rw [if_neg (by decide), if_neg hidx]
    rw [hstep]
    refine ⟨rfl, rfl, rfl, fun hc => absurd hc hidx, fun _ => ⟨?_, rfl⟩⟩
    rw [hf]
    exact list_remove_length (f :: rest) _ hm

theorem claim_C9_witness :
    ((⟨["0001"], 1, [], [], ["0001"], false⟩ : RunState).futures = "0001" :: [])
    ∧ ((fun _ => FutResult.exc "boom")
          (("0001" :: []).getD ((fun _ : Nat => 0) 0 % ("0001" :: []).length) "")
        = FutResult.exc "boom")
    ∧ (schedStep ["0001", "0002"] false (fun _ => FutResult.exc "boom") (fun _ => 0) 0
          ⟨["0001"], 1, [], [], ["0001"], false⟩).found
        = (⟨["0001"], 1, [], [], ["0001"], false⟩ : RunState).found :=
  ⟨rfl, rfl,
   (claim_C9 ["0001", "0002"] false (fun _ => FutResult.exc "boom") (fun _ => 0) 0
       ⟨["0001"], 1, [], [], ["0001"], false⟩ "0001" [] "boom" rfl rfl).2.1⟩

lemma pinList_length : pinList.length = 10000 := by
  simp [pinList]

lemma pinList_getD (k : Nat) (h : k < 10000) : pinList.getD k "" = pad4 k := by
  unfold pinList
  rw [List.getD_eq_getElem?_getD, List.getElem?_map, List.getElem?_range h]
  rfl

lemma digitChar_inj :
    ∀ a < 10, ∀ b < 10, Nat.digitChar a = Nat.digitChar b → a = b := by
  decide

lemma pad4_inj (i j : Nat) (hi : i < 10000) (hj : j < 10000) (h : pad4 i = pad4 j) :
    i = j := by
  unfold pad4 at h
  have hd := congrArg String.data h
  simp only [List.cons.injEq, and_true] at hd
  obtain ⟨h3, h2, h1, h0⟩ := hd
  have e3 := digitChar_inj _ (Nat.mod_lt _ (by norm_num)) _ (Nat.mod_lt _ (by norm_num)) h3
  have e2 := digitChar_inj _ (Nat.mod_lt _ (by norm_num)) _ (Nat.mod_lt _ (by norm_num)) h2
  have e1 := digitChar_inj _ (Nat.mod_lt _ (by norm_num)) _ (Nat.mod_lt _ (by norm_num)) h1
  have e0 := digitChar_inj _ (Nat.mod_lt _ (by norm_num)) _ (Nat.mod_lt _ (by norm_num)) h0
  omega

lemma pinList_nodup : pinList.Nodup := by
  unfold pinList
  refine List.Nodup.map_on ?_ (List.nodup_range 10000)
  intro x hx y hy hxy
  exact pad4_inj x y (List.mem_range.mp hx) (List.mem_range.mp hy) hxy

lemma take_succ_getD (l : List String) (n : Nat) (hn : n < l.length) :
    l.take (n + 1) = l.take n ++ [l.getD n ""] := by
  rw [List.take_succ, List.getD_eq_getElem?_getD, List.getElem?_eq_getElem hn]
  rfl

lemma take_min_self (l : List String) (t : Nat) : l.take (min t l.length) = l.take t := by
  rcases le_total t l.length with h | h
  · rw [min_eq_left h]
  · rw [min_eq_right h, List.take_length, List.take_of_length_le h]

/-- The issuance invariant of a run with `stop_on_found` unset: the cursor
stays in range, the issuance log is exactly the prefix of the candidate list
up to the cursor, the stop flag stays clear, and futures only run dry once
the cursor has exhausted the candidates. -/
def InvC7 (pins : List String) (st : RunState) : Prop :=
  st.idx ≤ pins.length ∧ (st.futures = [] → st.idx = pins.length)
    ∧ st.issued = pins.take st.idx ∧ st.stopped = false

lemma schedStep_invC7 (pins : List String) (att : String → FutResult) (sched : Nat → Nat)
    (tick : Nat) (st : RunState) (h : InvC7 pins st) (hne : st.futures ≠ []) :
    InvC7 pins (schedStep pins false att sched tick st) := by
  obtain ⟨h1, h2, h3, h4⟩ := h
  rcases schedStep_cases pins false att sched tick st _ rfl hne with
    ⟨_, hso, _⟩ | ⟨hs, hlt, hi, hl, hiss⟩ | ⟨hs, hge, hi, hl, hiss⟩
  · cases hso
  · refine ⟨by omega, ?_, ?_, hs.trans h4⟩
    · intro hemp
      rw [hemp] at hl
      simp only [List.length_nil] at hl
      have : st.futures.length ≠ 0 := fun hz => hne (List.length_eq_zero.mp hz)
      omega
    · rw [hiss, hi, h3, ← take_succ_getD pins st.idx hlt]
  · refine ⟨by omega, fun _ => by omega, by rw [hiss, hi]; exact h3, hs.trans h4⟩

lemma runSchedAux_complete (pins : List String) (att : String → FutResult)
    (sched : Nat → Nat) :
    ∀ fuel tick st, InvC7 pins st →
      (pins.length - st.idx) + st.futures.length < fuel →
      InvC7 pins (runSchedAux pins false att sched fuel tick st)
      ∧ (runSchedAux pins false att sched fuel tick st).futures = [] := by
  intro fuel
  induction fuel with
  | zero => intro tick st _ hlt; omega
  | succ n ih =>
    intro tick st h hlt
    by_cases hne : st.futures = []
    · simp only [runSchedAux, if_pos hne]
      exact ⟨h, hne⟩
    · have hcases := schedStep_cases pins false att sched tick st _ rfl hne
      have hinv' := schedStep_invC7 pins att sched tick st h hne
      have hflen : st.futures.length ≠ 0 := fun hz => hne (List.length_eq_zero.mp hz)
      have hstop : ¬ (schedStep pins false att sched tick st).stopped = true := by
        rw [hinv'.2.2.2]
        decide
      have hmeas : (pins.length - (schedStep pins false att sched tick st).idx)
            + (schedStep pins false att sched tick st).futures.length
          < (pins.length - st.idx) + st.futures.length := by
        rcases hcases with ⟨_, hso, _⟩ | ⟨_, hlt2, hi, hl, _⟩ | ⟨_, hge, hi, hl, _⟩
        · cases hso
        · omega
        · omega
      simp only [runSchedAux, if_neg hne, if_neg hstop]
      exact ih (tick + 1) _ hinv' (by omega)

/-- Claim C7 (confirmed): the PIN-mode candidate source is the 10000
zero-padded width-4 decimal strings in ascending numeric order (entry `i` is
`pad4 i`, and the list has no duplicates), and a run that never stops early
(`stop_on_found` unset) issues exactly this list: the issuance log of the
finished run equals `pinList`, so each candidate is issued exactly once, in
source order. -/
theorem claim_C7 (t : Nat) (attempt : String → FutResult) (sched : Nat → Nat)
    (ht : 0 < t) :
    (runMain pinList t false attempt sched).issued = pinList
    ∧ pinList.Nodup
    ∧ pinList.length = 10000
    ∧ ∀ i, i < 10000 → pinList.getD i "" = pad4 i := by
  refine ⟨?_, pinList_nodup, pinList_length, fun i hi => pinList_getD i hi⟩
  have hinit : InvC7 pinList (initState pinList t) := by
    unfold InvC7 initState
    refine ⟨by simp [List.length_take], ?_, ?_, rfl⟩
    · intro hemp
      exfalso
      have : min t pinList.length = 0 := by
        simpa [List.length_take] using congrArg List.length hemp
      rw [pinList_length] at this
      omega
    · simp only [List.length_take]
      rw [take_min_self]
  have hrun := runSchedAux_complete pinList attempt sched (pinList.length + t + 1) 0
    (initState pinList t) hinit
    (by
      unfold initState
      simp only [List.length_take]
      omega)
  unfold runMain
  have h1 := hrun.1.2.1 hrun.2
  rw [hrun.1.2.2.1, h1, List.take_length]

theorem claim_C7_witness :
    0 < 2
    ∧ (runMain pinList 2 false (fun p => FutResult.ok (p, none, none, .pynone))
          (fun _ => 0)).issued = pinList :=
  ⟨by decide,
   (claim_C7 2 (fun p => FutResult.ok (p, none, none, .pynone)) (fun _ => 0)
     (by decide)).1⟩

/-! ## The C5 scenario: a mock endpoint that answers `{"flag": "X"}` for
candidate "4242" and a plain failure for every other candidate. -/

/-- The mock endpoint: candidate "4242" gets HTTP 200 with JSON
`{"flag": "X"}`, every other candidate gets HTTP 403 with the non-matching
text `"Wrong PIN"` (no `flag`, no braces). -/
def mockBody (pin : String) : SendResult :=
  if pin = "4242" then .response 200 (.jsonOk (.pydict [("flag", PyVal.str "X")]))
  else .response 403 (.notJson "Wrong PIN")

/-- One full attempt against the mock endpoint with `retries = 1`:
`make_request` followed by `worker`, as submitted by `main`. -/
def mockAttempt (pin : String) : FutResult :=
  .ok (worker pin "flag" (make_request 1 (fun _ => mockBody pin)).status
        (make_request 1 (fun _ => mockBody pin)).data)

lemma mockAttempt_hit :
    mockAttempt "4242"
      = .ok ("4242", some (PyVal.str "X"), some 200, .pydict [("flag", PyVal.str "X")]) := by
  rfl

lemma mockAttempt_miss (p : String) (h : p ≠ "4242") :
    mockAttempt p = .ok (p, none, some 403, .pystr "Wrong PIN") := by
  have hb : (fun _ : Nat => mockBody p)
      = (fun _ => SendResult.response 403 (.notJson "Wrong PIN")) :=
    funext fun _ => if_neg h
  unfold mockAttempt
  rw [hb]
  rfl

lemma pad4_4242 : pad4 4242 = "4242" := by decide

lemma pad4_ne_4242 (k : Nat) (hk : k < 10000) (hne : k ≠ 4242) : pad4 k ≠ "4242" :=
  fun h => hne (pad4_inj k 4242 hk (by norm_num) (h.trans pad4_4242.symm))

lemma runSchedAux_cons (pins : List String) (so : Bool) (att : String → FutResult)
    (sched : Nat → Nat) (fuel tick : Nat) (st : RunState)
    (hne : ¬ st.futures = [])
    (hstop : (schedStep pins so att sched tick st).stopped = false) :
    runSchedAux pins so att sched (fuel + 1) tick st
      = runSchedAux pins so att sched fuel (tick + 1)
          (schedStep pins so att sched tick st) := by
  simp only [runSchedAux, if_neg hne, hstop]
  simp

lemma runSchedAux_stop (pins : List String) (so : Bool) (att : String → FutResult)
    (sched : Nat → Nat) (fuel tick : Nat) (st : RunState)
    (hne : ¬ st.futures = [])
    (hstop : (schedStep pins so att sched tick st).stopped = true) :
    runSchedAux pins so att sched (fuel + 1) tick st
      = schedStep pins so att sched tick st := by
  simp only [runSchedAux, if_neg hne, hstop]
  simp

/-- One failing tick of the C5 run under the head-first completion schedule:
the head candidate `pad4 k` completes as a failure, and the slot is refilled
with the next unissued candidate `pad4 idx`. -/
lemma c5_step (k idx : Nat) (hk : k < 10000) (hne : k ≠ 4242) (hidx : idx < 10000)
    (T O I : List String) (F : List (String × String)) (tick : Nat) :
    schedStep pinList true mockAttempt (fun _ => 0) tick
        ⟨pad4 k :: T, idx, F, O, I, false⟩
      = ⟨pad4 idx :: T, idx + 1, F, O, I ++ [pad4 idx], false⟩ := by
  have hpr : processOutcome true F O (pad4 k) (mockAttempt (pad4 k)) = (F, O, false) := by
    rw [mockAttempt_miss (pad4 k) (pad4_ne_4242 k hk hne)]
    rfl
  simp only [schedStep, Nat.zero_mod, List.getD_cons_zero, List.take_zero,
    List.drop_succ_cons, List.drop_zero, List.nil_append]
  rw [hpr]
  dsimp only
  rw [if_neg (by decide), if_pos (show idx < pinList.length by rw [pinList_length]; exact hidx),
    pinList_getD idx hidx]

/-- The successful tick of the C5 run: the head candidate `pad4 4242`
completes with the flag, the success is recorded and reported, and the run
stops (`--stop-on-found`) without refilling. -/
lemma c5_hit (idx : Nat) (T O I : List String) (F : List (String × String)) (tick : Nat) :
    schedStep pinList true mockAttempt (fun _ => 0) tick
        ⟨pad4 4242 :: T, idx, F, O, I, false⟩
      = ⟨pad4 4242 :: T, idx, F ++ [("4242", "X")],
         O ++ ["Correct PIN found: " ++ "4242", "Flag: " ++ "X"]
           ++ ["Stopping because --stop-on-found was set."], I, true⟩ := by
  have hdf : displayFlag (PyVal.str "X") = "X" := by decide
  have hpr : processOutcome true F O (pad4 4242) (mockAttempt (pad4 4242))
      = (F ++ [("4242", "X")],
         O ++ ["Correct PIN found: " ++ "4242", "Flag: " ++ "X"], true) := by
    rw [pad4_4242, mockAttempt_hit]
    dsimp only [processOutcome]
    rw [if_pos (by decide), hdf]
  simp only [schedStep, Nat.zero_mod, List.getD_cons_zero]
  rw [hpr]
  dsimp only
  rw [if_pos rfl]

/-- The body of the C5 run: from a loop-head state whose futures queue heads
the next unissued candidate `pad4 k` (cursor at `k + 1`), with `4242 - k`
failing ticks remaining before candidate "4242" is reached, the run ends
stopped with exactly the success `("4242", "X")`, cursor 4243, and exactly
one issuance per consumed tick. -/
lemma c5_run (n : Nat) :
    ∀ k fuel tick T O I, k + n = 4242 → n < fuel →
      (runSchedAux pinList true mockAttempt (fun _ => 0) fuel tick
          ⟨pad4 k :: T, k + 1, [], O, I, false⟩).found = [("4242", "X")]
      ∧ (runSchedAux pinList true mockAttempt (fun _ => 0) fuel tick
          ⟨pad4 k :: T, k + 1, [], O, I, false⟩).stopped = true
      ∧ (runSchedAux pinList true mockAttempt (fun _ => 0) fuel tick
          ⟨pad4 k :: T, k + 1, [], O, I, false⟩).idx = 4243
      ∧ (runSchedAux pinList true mockAttempt (fun _ => 0) fuel tick
          ⟨pad4 k :: T, k + 1, [], O, I, false⟩).issued.length = I.length + n := by
  induction n with
  | zero =>
    intro k fuel tick T O I hk hf
    obtain ⟨m, rfl⟩ : ∃ m, fuel = m + 1 := ⟨fuel - 1, by omega⟩
    have hk' : k = 4242 := by omega
    subst hk'
    rw [runSchedAux_stop _ _ _ _ _ _ _ (by simp) (by rw [c5_hit])]
    rw [c5_hit]
    exact ⟨by simp, rfl, by simp, by simp⟩
  | succ m ih =>
    intro k fuel tick T O I hk hf
    obtain ⟨fm, rfl⟩ : ∃ fm, fuel = fm + 1 := ⟨fuel - 1, by omega⟩
    have hs := c5_step k (k + 1) (by omega) (by omega) (by omega) T O I [] tick
    rw [runSchedAux_cons _ _ _ _ _ _ _ (by simp) (by rw [hs])]
    rw [hs]
    have htail := ih (k + 1) fm (tick + 1) T O (I ++ [pad4 (k + 1)]) (by omega) (by omega)
    refine ⟨htail.1, htail.2.1, htail.2.2.1, ?_⟩
    rw [htail.2.2.2]
    simp only [List.length_append, List.length_singleton]
    omega

/-- Claim C5 (confirmed): the PIN-mode run against the mock endpoint with
`threads = 5`, `retries = 1` and `--stop-on-found`, under the deterministic
head-first completion schedule, terminates stopped with exactly the one
recorded success `("4242", "X")`, having issued only 4243 of the 10000
candidates. -/
theorem claim_C5 :
    (runMain pinList 5 true mockAttempt (fun _ => 0)).found = [("4242", "X")]
    ∧ (runMain pinList 5 true mockAttempt (fun _ => 0)).stopped = true
    ∧ (runMain pinList 5 true mockAttempt (fun _ => 0)).issued.length = 4243
    ∧ 4243 < pinList.length := by
  have h5 : pinList.take 5 = [pad4 0, pad4 1, pad4 2, pad4 3, pad4 4] := by
    unfold pinList
    rw [← List.map_take, List.take_range]
    norm_num
    rfl
  have hinit : initState pinList 5
      = ⟨[pad4 0, pad4 1, pad4 2, pad4 3, pad4 4], 5, [], [],
         [pad4 0, pad4 1, pad4 2, pad4 3, pad4 4], false⟩ := by
    unfold initState
    rw [h5]
    rfl
  have hs0 := c5_step 0 5 (by norm_num) (by norm_num) (by norm_num)
    [pad4 1, pad4 2, pad4 3, pad4 4] []
    [pad4 0, pad4 1, pad4 2, pad4 3, pad4 4] [] 0
  have hmain : runMain pinList 5 true mockAttempt (fun _ => 0)
      = runSchedAux pinList true mockAttempt (fun _ => 0) (10000 + 5) (0 + 1)
          ⟨pad4 5 :: [pad4 1, pad4 2, pad4 3, pad4 4], 5 + 1, [], [],
           [pad4 0, pad4 1, pad4 2, pad4 3, pad4 4] ++ [pad4 5], false⟩ := by
    unfold runMain
    rw [hinit, pinList_length]
    rw [runSchedAux_cons _ _ _ _ _ _ _ (by simp) (by rw [hs0])]
    rw [hs0]
  have hrun := c5_run 4237 5 (10000 + 5) (0 + 1) [pad4 1, pad4 2, pad4 3, pad4 4] []
    ([pad4 0, pad4 1, pad4 2, pad4 3, pad4 4] ++ [pad4 5]) (by norm_num) (by norm_num)
  rw [hmain]
  refine ⟨hrun.1, hrun.2.1, ?_, by rw [pinList_length]; norm_num⟩
  rw [hrun.2.2.2]
  simp

end PinTester
